import Mathlib

/-!
Verification of the batch subtitle-generation pipeline implemented in
`youtube_subtitle_generator.py` of the repository
`Natalieihs/youtube-whisper-subtitles`.

The definitions in this file are shallow embeddings of the functions of that
program: the post-run artifact resolution of `download_audio`, the
pre-check/post-check logic of `generate_subtitle`, the validation and URL
collection of `start_processing`, the path fallback of `find_executable`, the
sequential item loop of `process_urls` (with the cooperative stop flag made
explicit as a checkpoint schedule), and the interleaving of the Tk main thread
with worker threads (as a labelled transition system).  Filesystem contents and
external process behaviour are passed in as explicit parameters.
-/

namespace SubtitleGen

/-! ## Audio extraction: post-run artifact scan (`download_audio`, lines 621-635)

After `self.process.wait()` the code runs
`mp3_files = list(Path(output_dir).glob("*.mp3"))`; if the list is non-empty
it picks `max(mp3_files, key=lambda p: p.stat().st_mtime)` (Python `max`
keeps the first maximal element) and returns it, logging a warning when the
exit code was non-zero; only when the list is empty does it log a failure and
return `None`.  A directory entry is modelled by its name and mtime. -/

/-- One file of the output directory: name and modification time. -/
structure FsFile where
  name : String
  mtime : Nat
deriving DecidableEq

/-- Executable ends-with test on strings, via their character lists: `s` ends
with `suffix` iff the last `suffix.length` characters of `s` are `suffix`. -/
def strEndsWith (s suffix : String) : Bool :=
  s.data.reverse.take suffix.data.length == suffix.data.reverse

/-- Python `str.strip()`: drop whitespace from both ends, modelled over the
character list of the string. -/
def pyStrip (s : String) : String :=
  ⟨((s.data.dropWhile Char.isWhitespace).reverse.dropWhile Char.isWhitespace).reverse⟩

/-- `Path(output_dir).glob("*.mp3")` membership test: the name ends in `.mp3`. -/
def isMp3 (f : FsFile) : Bool :=
  strEndsWith f.name ".mp3"

/-- `max(mp3_files, key=lambda p: p.stat().st_mtime)`: Python `max` scans left
to right and replaces the current maximum only on a strictly larger key, so
the first maximal element is kept. -/
def newestFile (f : FsFile) (fs : List FsFile) : FsFile :=
  fs.foldl (fun best x => if best.mtime < x.mtime then x else best) f

/-- The artifact resolution of `download_audio` after the process has ended:
first component is the returned artifact (`none` models Python `None`), second
component the log lines emitted by this block. -/
def downloadAudioResolve (dirFiles : List FsFile) (exitCode : Int) :
    Option FsFile × List String :=
  match dirFiles.filter isMp3 with
  | [] => (none, ["download failed with the reported exit code", "no downloaded mp3 file found"])
  | f :: fs =>
    (some (newestFile f fs),
      if exitCode ≠ 0 then
        ["note: the extractor returned a nonzero exit code but the file was downloaded"]
      else [])

/-- The extraction step scans the whole output directory: the files seen by the
scan are the files already present before the run together with whatever the
process wrote. -/
def audioExtractionResolve (preFiles written : List FsFile) (exitCode : Int) :
    Option FsFile × List String :=
  downloadAudioResolve (preFiles ++ written) exitCode

lemma newestFile_mem (f : FsFile) (fs : List FsFile) : newestFile f fs ∈ f :: fs := by
  induction fs generalizing f with
  | nil => simp [newestFile]
  | cons x xs ih =>
    have h := ih (if f.mtime < x.mtime then x else f)
    simp only [newestFile, List.foldl_cons] at h ⊢
    rcases List.mem_cons.mp h with h1 | h1
    · rw [h1]
      split <;> simp
    · simp [h1]

lemma newestFile_max (f : FsFile) (fs : List FsFile) :
    ∀ y ∈ f :: fs, y.mtime ≤ (newestFile f fs).mtime := by
  induction fs generalizing f with
  | nil => simp [newestFile]
  | cons x xs ih =>
    intro y hy
    have hstep : f.mtime ≤ (if f.mtime < x.mtime then x else f).mtime ∧
        x.mtime ≤ (if f.mtime < x.mtime then x else f).mtime := by
      split <;> omega
    have h := ih (if f.mtime < x.mtime then x else f)
    simp only [newestFile, List.foldl_cons] at h ⊢
    rcases List.mem_cons.mp hy with h1 | h1
    · subst h1
      exact le_trans hstep.1 (h _ (List.mem_cons_self _ _))
    · rcases List.mem_cons.mp h1 with h2 | h2
      · subst h2
        exact le_trans hstep.2 (h _ (List.mem_cons_self _ _))
      · exact h _ (List.mem_cons.mpr (Or.inr h2))

/-- Shared success characterisation of the artifact scan: whenever some `.mp3`
file is in the directory, the scan returns an `.mp3` member of the directory
whose mtime dominates every `.mp3` member, for every exit code. -/
lemma downloadAudioResolve_success (dirFiles : List FsFile) (e : Int)
    (h : dirFiles.filter isMp3 ≠ []) :
    ∃ g, (downloadAudioResolve dirFiles e).1 = some g ∧ isMp3 g = true ∧ g ∈ dirFiles ∧
      ∀ f ∈ dirFiles, isMp3 f = true → f.mtime ≤ g.mtime := by
  rcases hm : dirFiles.filter isMp3 with _ | ⟨f, fs⟩
  · exact absurd hm h
  · refine ⟨newestFile f fs, by simp [downloadAudioResolve, hm], ?_, ?_, ?_⟩
    · have hmem : newestFile f fs ∈ dirFiles.filter isMp3 := by
        rw [hm]; exact newestFile_mem f fs
      exact (List.mem_filter.mp hmem).2
    · have hmem : newestFile f fs ∈ dirFiles.filter isMp3 := by
        rw [hm]; exact newestFile_mem f fs
      exact (List.mem_filter.mp hmem).1
    · intro x hx hxm
      have hxf : x ∈ dirFiles.filter isMp3 := List.mem_filter.mpr ⟨hx, hxm⟩
      rw [hm] at hxf
      exact newestFile_max f fs x hxf

/-- Claim C2: after the extractor process ends, the step result is decided by
artifact presence and not by the exit code — the returned artifact is the same
for every exit code; with no `.mp3` present the step fails; with some `.mp3`
present the step succeeds with a most recently modified `.mp3` file of the
directory; and a warning line is logged when the exit code was non-zero yet an
artifact is present. -/
theorem c2_extraction_resolution (dirFiles : List FsFile) (e : Int) :
    (downloadAudioResolve dirFiles e).1 = (downloadAudioResolve dirFiles 0).1
    ∧ (dirFiles.filter isMp3 = [] → (downloadAudioResolve dirFiles e).1 = none)
    ∧ (dirFiles.filter isMp3 ≠ [] →
        ∃ g, (downloadAudioResolve dirFiles e).1 = some g ∧ isMp3 g = true ∧ g ∈ dirFiles ∧
          ∀ f ∈ dirFiles, isMp3 f = true → f.mtime ≤ g.mtime)
    ∧ (e ≠ 0 → dirFiles.filter isMp3 ≠ [] → (downloadAudioResolve dirFiles e).2 ≠ []) := by
  refine ⟨?_, ?_, downloadAudioResolve_success dirFiles e, ?_⟩
  · rcases hm : dirFiles.filter isMp3 with _ | ⟨f, fs⟩ <;>
      simp [downloadAudioResolve, hm]
  · intro hm
    simp [downloadAudioResolve, hm]
  · intro he hm
    rcases hm' : dirFiles.filter isMp3 with _ | ⟨f, fs⟩
    · exact absurd hm' hm
    · simp [downloadAudioResolve, hm', he]

/-- Concrete instance of `c2_extraction_resolution`: a directory holding two
mp3 files and a text file, with exit code 2. -/
theorem c2_extraction_resolution_witness :
    (downloadAudioResolve [⟨"a.mp3", 1⟩, ⟨"b.mp3", 5⟩, ⟨"c.txt", 9⟩] 2).1 =
      (downloadAudioResolve [⟨"a.mp3", 1⟩, ⟨"b.mp3", 5⟩, ⟨"c.txt", 9⟩] 0).1
    ∧ (([⟨"a.mp3", 1⟩, ⟨"b.mp3", 5⟩, ⟨"c.txt", 9⟩] : List FsFile).filter isMp3 = [] →
        (downloadAudioResolve [⟨"a.mp3", 1⟩, ⟨"b.mp3", 5⟩, ⟨"c.txt", 9⟩] 2).1 = none)
    ∧ (([⟨"a.mp3", 1⟩, ⟨"b.mp3", 5⟩, ⟨"c.txt", 9⟩] : List FsFile).filter isMp3 ≠ [] →
        ∃ g, (downloadAudioResolve [⟨"a.mp3", 1⟩, ⟨"b.mp3", 5⟩, ⟨"c.txt", 9⟩] 2).1 = some g ∧
          isMp3 g = true ∧ g ∈ [⟨"a.mp3", 1⟩, ⟨"b.mp3", 5⟩, ⟨"c.txt", 9⟩] ∧
          ∀ f ∈ [⟨"a.mp3", 1⟩, ⟨"b.mp3", 5⟩, ⟨"c.txt", 9⟩], isMp3 f = true →
            f.mtime ≤ g.mtime)
    ∧ ((2 : Int) ≠ 0 →
        ([⟨"a.mp3", 1⟩, ⟨"b.mp3", 5⟩, ⟨"c.txt", 9⟩] : List FsFile).filter isMp3 ≠ [] →
        (downloadAudioResolve [⟨"a.mp3", 1⟩, ⟨"b.mp3", 5⟩, ⟨"c.txt", 9⟩] 2).2 ≠ []) :=
  c2_extraction_resolution [⟨"a.mp3", 1⟩, ⟨"b.mp3", 5⟩, ⟨"c.txt", 9⟩] 2

/-- Claim C10: the post-run scan considers every `.mp3` file of the output
directory, not only files produced by the current invocation — when the
directory already contains an `.mp3` file and the process writes nothing, the
step still succeeds with a most recently modified pre-existing `.mp3` file,
for every exit code. -/
theorem c10_preexisting_artifact (preFiles : List FsFile) (e : Int)
    (h : preFiles.filter isMp3 ≠ []) :
    ∃ g, (audioExtractionResolve preFiles [] e).1 = some g ∧ g ∈ preFiles ∧
      isMp3 g = true ∧ ∀ f ∈ preFiles, isMp3 f = true → f.mtime ≤ g.mtime := by
  have h' : (preFiles ++ []).filter isMp3 ≠ [] := by
    rwa [List.append_nil]
  obtain ⟨g, hg1, hg2, hg3, hg4⟩ := downloadAudioResolve_success (preFiles ++ []) e h'
  rw [List.append_nil] at hg3 hg4
  exact ⟨g, hg1, hg3, hg2, hg4⟩

/-- Concrete instance of `c10_preexisting_artifact`: the output directory
already holds `old.mp3`, the extractor writes nothing and exits with code 1. -/
theorem c10_preexisting_artifact_witness :
    ∃ g, (audioExtractionResolve [⟨"old.mp3", 3⟩, ⟨"x.srt", 7⟩] [] 1).1 = some g ∧
      g ∈ [⟨"old.mp3", 3⟩, ⟨"x.srt", 7⟩] ∧ isMp3 g = true ∧
      ∀ f ∈ [⟨"old.mp3", 3⟩, ⟨"x.srt", 7⟩], isMp3 f = true → f.mtime ≤ g.mtime :=
  c10_preexisting_artifact [⟨"old.mp3", 3⟩, ⟨"x.srt", 7⟩] 1 (by decide)

/-! ## Transcription step (`generate_subtitle`, lines 641-696)

`generate_subtitle` derives `srt_file = f"{mp3_file}.srt"`; if that path already
exists with positive size it returns it without spawning (lines 646-649);
otherwise it spawns the transcriber and, after `wait()`, first checks the exit
code (non-zero is failure, lines 684-686) and only on exit code zero checks
that the derived path exists and is non-empty (lines 688-692).  The filesystem
is modelled as a partial map from paths to sizes; the process behaviour as its
exit code together with the filesystem after the run. -/

/-- The derived subtitle path: the audio path with `.srt` appended. -/
def srtPath (mp3File : String) : String :=
  mp3File ++ ".srt"

/-- `os.path.exists(p) and os.path.getsize(p) > 0` over a filesystem modelled
as a map from path to size. -/
def fileNonEmpty (fs : String → Option Nat) (p : String) : Bool :=
  match fs p with
  | some sz => decide (0 < sz)
  | none => false

/-- Behaviour of a transcriber process run: exit code, and the filesystem
after the run. -/
structure TranscribeProc where
  exitCode : Int
  fsAfter : String → Option Nat

/-- Result of one `generate_subtitle` call: the returned path (`none` models
Python `None`), whether a process was spawned, and the log lines. -/
structure TranscribeOut where
  result : Option String
  spawned : Bool
  logs : List String

/-- Shallow embedding of `generate_subtitle`. -/
def generateSubtitle (mp3File : String) (fsBefore : String → Option Nat)
    (proc : TranscribeProc) : TranscribeOut :=
  let srt := srtPath mp3File
  if fileNonEmpty fsBefore srt then
    { result := some srt, spawned := false, logs := ["subtitle already present, skipping"] }
  else if proc.exitCode ≠ 0 then
    { result := none, spawned := true, logs := ["subtitle generation failed with the reported exit code"] }
  else if fileNonEmpty proc.fsAfter srt then
    { result := some srt, spawned := true, logs := [] }
  else
    { result := none, spawned := true, logs := ["subtitle file was not produced"] }

/-- Claim C3: for a transcription run that spawns a process the exit code is
authoritative — a non-zero exit yields failure for every post-run filesystem
(the artifact is not consulted), and a zero exit succeeds exactly when the
derived subtitle file exists and is non-empty afterwards. -/
theorem c3_transcription_exit_authoritative (mp3File : String)
    (fsBefore : String → Option Nat) (proc : TranscribeProc)
    (hpre : fileNonEmpty fsBefore (srtPath mp3File) = false) :
    (generateSubtitle mp3File fsBefore proc).spawned = true
    ∧ (proc.exitCode ≠ 0 → (generateSubtitle mp3File fsBefore proc).result = none)
    ∧ (proc.exitCode = 0 →
        ((generateSubtitle mp3File fsBefore proc).result = some (srtPath mp3File)
          ↔ fileNonEmpty proc.fsAfter (srtPath mp3File) = true)) := by
  by_cases he : proc.exitCode = 0
  · by_cases hf : fileNonEmpty proc.fsAfter (srtPath mp3File) = true <;>
      simp [generateSubtitle, hpre, he, hf]
  · simp [generateSubtitle, hpre, he]

/-- Concrete instance of `c3_transcription_exit_authoritative`: no pre-existing
subtitle, exit code 0, the transcriber wrote a 5-byte `a.mp3.srt`. -/
theorem c3_transcription_exit_authoritative_witness :
    (generateSubtitle "a.mp3" (fun _ => none)
        ⟨0, fun p => if p = "a.mp3.srt" then some 5 else none⟩).spawned = true
    ∧ ((0 : Int) ≠ 0 → (generateSubtitle "a.mp3" (fun _ => none)
        ⟨0, fun p => if p = "a.mp3.srt" then some 5 else none⟩).result = none)
    ∧ ((0 : Int) = 0 →
        ((generateSubtitle "a.mp3" (fun _ => none)
            ⟨0, fun p => if p = "a.mp3.srt" then some 5 else none⟩).result =
              some (srtPath "a.mp3")
          ↔ fileNonEmpty (fun p => if p = "a.mp3.srt" then some 5 else none)
              (srtPath "a.mp3") = true)) :=
  c3_transcription_exit_authoritative "a.mp3" (fun _ => none)
    ⟨0, fun p => if p = "a.mp3.srt" then some 5 else none⟩ (by rfl)

/-- Claim C4: when the derived subtitle path (the audio path with `.srt`
appended) already exists with positive size, `generate_subtitle` returns that
path without spawning any process, for every process behaviour. -/
theorem c4_transcription_skip (mp3File : String) (fsBefore : String → Option Nat)
    (proc : TranscribeProc)
    (h : fileNonEmpty fsBefore (mp3File ++ ".srt") = true) :
    (generateSubtitle mp3File fsBefore proc).result = some (mp3File ++ ".srt")
    ∧ (generateSubtitle mp3File fsBefore proc).spawned = false := by
  constructor <;> simp [generateSubtitle, srtPath, h]

/-- Concrete instance of `c4_transcription_skip`: `b.mp3.srt` already exists
with size 12; the would-be process behaviour is irrelevant. -/
theorem c4_transcription_skip_witness :
    (generateSubtitle "b.mp3" (fun p => if p = "b.mp3.srt" then some 12 else none)
        ⟨1, fun _ => none⟩).result = some ("b.mp3" ++ ".srt")
    ∧ (generateSubtitle "b.mp3" (fun p => if p = "b.mp3.srt" then some 12 else none)
        ⟨1, fun _ => none⟩).spawned = false :=
  c4_transcription_skip "b.mp3" (fun p => if p = "b.mp3.srt" then some 12 else none)
    ⟨1, fun _ => none⟩ (by rfl)

/-! ## Start validation and enqueuing (`start_processing`, lines 467-510, and
`find_executable`, lines 22-42)

`start_processing` collects URLs: the single-entry URL if its strip is truthy,
then each stripped line of the batch box that is truthy and not already in the
list (lines 469-479).  It then warns and returns on: empty URL list, empty
output directory, missing transcriber binary, missing model file (lines
481-499); only past all checks does it set `processing = True` and spawn the
worker thread (lines 501-510).

`find_executable` returns `shutil.which`'s result when truthy, else the first
existing executable path among four common locations, else the bare name
(lines 22-42) — resolution never fails. -/

/-- The four fallback locations of `find_executable`. -/
def commonPaths (name : String) : List String :=
  ["/usr/local/bin/" ++ name, "/opt/homebrew/bin/" ++ name,
   "/usr/bin/" ++ name, "/bin/" ++ name]

/-- The fallback search of `find_executable`: first common path that exists
and is executable (the predicate `isExec` models
`os.path.exists(p) and os.access(p, os.X_OK)`), else the name itself. -/
def fallbackSearch (isExec : String → Bool) (name : String) : String :=
  match (commonPaths name).find? isExec with
  | some p => p
  | none => name

/-- Shallow embedding of `find_executable`; `which` is the result of
`shutil.which(name)` (`some ""` is falsy in Python, hence falls through). -/
def findExecPath (which : Option String) (isExec : String → Bool) (name : String) : String :=
  match which with
  | some p => if p = "" then fallbackSearch isExec name else p
  | none => fallbackSearch isExec name

/-- URL collection of `start_processing`: the stripped single URL when
non-empty, then each stripped batch line that is non-empty and not already
collected. -/
def collectUrls (singleUrl : String) (batchLines : List String) : List String :=
  let init := if pyStrip singleUrl = "" then [] else [pyStrip singleUrl]
  batchLines.foldl
    (fun acc line =>
      let u := pyStrip line
      if u ≠ "" ∧ u ∉ acc then acc ++ [u] else acc)
    init

/-- Local MP3 collection of `process_local_mp3` (lines 333-336): the per-folder
file lists are concatenated by `mp3_files.extend(...)`, with no
de-duplication. -/
def collectMp3Files (folderContents : List (List String)) : List String :=
  folderContents.foldl (fun acc l => acc ++ l) []

/-- The configuration read by `start_processing` from the entry widgets. -/
structure StartCfg where
  singleUrl : String
  batchLines : List String
  outputDir : String
  whisperBin : String
  whisperModel : String

/-- Outcome of a `start_processing` call: a warning dialog (the method returns
without touching `processing` or spawning a thread), or a started batch with
its URL list. -/
inductive StartOutcome where
  | warned (msg : String)
  | started (urls : List String)
deriving DecidableEq

/-- Whether the outcome spawns the worker thread (and sets `processing`). -/
def spawnsWorker : StartOutcome → Bool
  | .warned _ => false
  | .started _ => true

/-- Shallow embedding of `start_processing`; `pathExists` models
`os.path.exists`. -/
def startProcessing (cfg : StartCfg) (pathExists : String → Bool) : StartOutcome :=
  let urls := collectUrls cfg.singleUrl cfg.batchLines
  if urls = [] then .warned "please enter at least one URL"
  else if pyStrip cfg.outputDir = "" then .warned "please choose an output directory"
  else if !pathExists (pyStrip cfg.whisperBin) then .warned "whisper binary does not exist"
  else if !pathExists (pyStrip cfg.whisperModel) then .warned "whisper model does not exist"
  else .started urls

/-- Claim C8: a batch is started only when the output directory is non-empty
and the transcriber binary and model paths exist; any validation failure
yields a warning outcome that spawns nothing; and extractor resolution never
fails — `find_executable` always yields the `which` result, a common path, or
the bare name. -/
theorem c8_start_validation (cfg : StartCfg) (pathExists : String → Bool) :
    (∀ urls, startProcessing cfg pathExists = StartOutcome.started urls →
      pyStrip cfg.outputDir ≠ "" ∧ pathExists (pyStrip cfg.whisperBin) = true ∧
        pathExists (pyStrip cfg.whisperModel) = true)
    ∧ ((pyStrip cfg.outputDir = "" ∨ pathExists (pyStrip cfg.whisperBin) = false ∨
          pathExists (pyStrip cfg.whisperModel) = false) →
        ∃ msg, startProcessing cfg pathExists = StartOutcome.warned msg)
    ∧ (∀ msg, startProcessing cfg pathExists = StartOutcome.warned msg →
        spawnsWorker (startProcessing cfg pathExists) = false)
    ∧ (∀ which isExec name, (∃ p, which = some p ∧ p ≠ "" ∧ findExecPath which isExec name = p)
        ∨ findExecPath which isExec name ∈ commonPaths name
        ∨ findExecPath which isExec name = name) := by
  refine ⟨?_, ?_, ?_, ?_⟩
  · intro urls h
    by_cases h1 : collectUrls cfg.singleUrl cfg.batchLines = [] <;>
      by_cases h2 : pyStrip cfg.outputDir = "" <;>
        by_cases h3 : pathExists (pyStrip cfg.whisperBin) <;>
          by_cases h4 : pathExists (pyStrip cfg.whisperModel) <;>
            simp [startProcessing, h1, h2, h3, h4] at h ⊢
  · intro hbad
    by_cases h1 : collectUrls cfg.singleUrl cfg.batchLines = [] <;>
      by_cases h2 : pyStrip cfg.outputDir = "" <;>
        by_cases h3 : pathExists (pyStrip cfg.whisperBin) <;>
          by_cases h4 : pathExists (pyStrip cfg.whisperModel) <;>
            simp_all [startProcessing]
  · intro msg h
    rw [h]
    rfl
  · intro which isExec name
    match which with
    | some p =>
      by_cases hp : p = ""
      · match hf : (commonPaths name).find? isExec with
        | some q =>
          exact Or.inr (Or.inl (by
            simp [findExecPath, fallbackSearch, hp, hf]
            exact List.mem_of_find?_eq_some hf))
        | none =>
          exact Or.inr (Or.inr (by simp [findExecPath, fallbackSearch, hp, hf]))
      · exact Or.inl ⟨p, rfl, hp, by simp [findExecPath, hp]⟩
    | none =>
      match hf : (commonPaths name).find? isExec with
      | some q =>
        exact Or.inr (Or.inl (by
          simp [findExecPath, fallbackSearch, hf]
          exact List.mem_of_find?_eq_some hf))
      | none =>
        exact Or.inr (Or.inr (by simp [findExecPath, fallbackSearch, hf]))

/-- Concrete instance of `c8_start_validation`: one URL, an empty output
directory and a filesystem where every path exists. -/
theorem c8_start_validation_witness :
    (∀ urls, startProcessing ⟨"u1", [], "", "/w/bin", "/w/model"⟩ (fun _ => true) =
        StartOutcome.started urls →
      pyStrip "" ≠ "" ∧ (fun _ => true) (pyStrip "/w/bin") = true ∧
        (fun _ => true) (pyStrip "/w/model") = true)
    ∧ ((pyStrip "" = "" ∨ (fun _ => true) (pyStrip "/w/bin") = false ∨
          (fun _ => true) (pyStrip "/w/model") = false) →
        ∃ msg, startProcessing ⟨"u1", [], "", "/w/bin", "/w/model"⟩ (fun _ => true) =
          StartOutcome.warned msg)
    ∧ (∀ msg, startProcessing ⟨"u1", [], "", "/w/bin", "/w/model"⟩ (fun _ => true) =
        StartOutcome.warned msg →
        spawnsWorker (startProcessing ⟨"u1", [], "", "/w/bin", "/w/model"⟩ (fun _ => true)) = false)
    ∧ (∀ which isExec name,
        (∃ p, which = some p ∧ p ≠ "" ∧ findExecPath which isExec name = p)
        ∨ findExecPath which isExec name ∈ commonPaths name
        ∨ findExecPath which isExec name = name) :=
  c8_start_validation ⟨"u1", [], "", "/w/bin", "/w/model"⟩ (fun _ => true)

/-! ## Enqueue order and de-duplication (claim C9) -/

/-- One fold step of the URL collection: append the stripped line when it is
non-empty and not yet collected. -/
def dedupStep (acc : List String) (u : String) : List String :=
  if u ≠ "" ∧ u ∉ acc then acc ++ [u] else acc

/-- Modelled from the spec: "duplicate URLs are de-duplicated before
enqueuing (each distinct URL appears once, at its first occurrence)" — keep
the first occurrence of each element, dropping later repeats. -/
def dedupFirst : List String → List String
  | [] => []
  | x :: xs => x :: dedupFirst (xs.filter fun y => decide (y ≠ x))
termination_by l => l.length
decreasing_by
  simp only [List.length_cons]
  exact Nat.lt_succ_of_le (List.length_filter_le _ _)

/-- The raw URL sequence offered to the enqueue logic: the stripped single
URL when non-empty, then the non-empty stripped batch lines, in order. -/
def urlSource (singleUrl : String) (batchLines : List String) : List String :=
  (if pyStrip singleUrl = "" then [] else [pyStrip singleUrl]) ++
    (batchLines.map pyStrip).filter fun u => decide (u ≠ "")

lemma mem_dedupFirst (a : String) : ∀ l : List String, a ∈ dedupFirst l ↔ a ∈ l := by
  intro l
  induction l using dedupFirst.induct with
  | case1 => simp [dedupFirst]
  | case2 x xs ih =>
    rw [dedupFirst]
    simp only [List.mem_cons, ih, List.mem_filter, decide_eq_true_eq]
    constructor
    · rintro (h | ⟨h, _⟩)
      · exact Or.inl h
      · exact Or.inr h
    · rintro (h | h)
      · exact Or.inl h
      · by_cases hx : a = x
        · exact Or.inl hx
        · exact Or.inr ⟨h, hx⟩

lemma dedupFirst_nodup : ∀ l : List String, (dedupFirst l).Nodup := by
  intro l
  induction l using dedupFirst.induct with
  | case1 => simp [dedupFirst]
  | case2 x xs ih =>
    rw [dedupFirst]
    refine List.nodup_cons.mpr ⟨?_, ih⟩
    intro hmem
    have := (mem_dedupFirst x _).mp hmem
    simp at this

lemma foldl_dedupStep (l : List String) (acc : List String) :
    l.foldl dedupStep acc =
      acc ++ dedupFirst ((l.filter fun u => decide (u ≠ "")).filter
        fun u => decide (u ∉ acc)) := by
  induction l generalizing acc with
  | nil => simp [dedupFirst]
  | cons u l' ih =>
    by_cases hu : u = ""
    · subst hu
      have hstep : dedupStep acc "" = acc := by simp [dedupStep]
      simp only [List.foldl_cons, hstep, List.filter_cons, decide_eq_true_eq]
      simp [ih]
    · by_cases hmem : u ∈ acc
      · have hstep : dedupStep acc u = acc := by simp [dedupStep, hmem]
        simp only [List.foldl_cons, hstep, List.filter_cons, decide_eq_true_eq]
        rw [if_pos hu]
        simp only [List.filter_cons, decide_eq_true_eq]
        rw [if_neg (by simp [hmem])]
        exact ih acc
      · have hstep : dedupStep acc u = acc ++ [u] := by simp [dedupStep, hu, hmem]
        rw [List.foldl_cons, hstep, ih (acc ++ [u])]
        rw [List.filter_cons_of_pos (by simp [hu]), List.filter_cons_of_pos (by simp [hmem])]
        rw [dedupFirst]
        have key : List.filter (fun y => decide (y ≠ u))
              (List.filter (fun v => decide (v ∉ acc))
                (List.filter (fun v => decide (v ≠ "")) l')) =
            List.filter (fun v => decide (v ∉ acc ++ [u]))
              (List.filter (fun v => decide (v ≠ "")) l') := by
          rw [List.filter_filter]
          apply List.filter_congr
          intro v _
          by_cases h1 : v = u <;> by_cases h2 : v ∈ acc <;> simp [h1, h2]
        rw [key]
        simp [List.append_assoc]

lemma collectUrls_eq_foldl (s : String) (b : List String) :
    collectUrls s b = (b.map pyStrip).foldl dedupStep
      (if pyStrip s = "" then [] else [pyStrip s]) := by
  rw [List.foldl_map]
  rfl

/-- Claim C9 (URLs part, helper): the enqueued URL list is exactly the
keep-first de-duplication of the offered URL sequence. -/
lemma collectUrls_eq_dedupFirst (s : String) (b : List String) :
    collectUrls s b = dedupFirst (urlSource s b) := by
  rw [collectUrls_eq_foldl, foldl_dedupStep, urlSource]
  by_cases hs : pyStrip s = ""
  · rw [if_pos hs]
    simp only [List.nil_append]
    congr 1
    simp
  · rw [if_neg hs]
    have hstep : dedupFirst (pyStrip s :: (b.map pyStrip).filter fun u => decide (u ≠ "")) =
        pyStrip s :: dedupFirst (((b.map pyStrip).filter fun u => decide (u ≠ "")).filter
          fun y => decide (y ≠ pyStrip s)) := by
      rw [dedupFirst]
    rw [List.singleton_append, List.singleton_append, hstep]
    congr 2
    apply List.filter_congr
    intro v _
    simp

lemma flatten_count (x : String) : ∀ F : List (List String),
    F.flatten.count x = (F.map fun l => l.count x).sum := by
  intro F
  induction F with
  | nil => simp
  | cons l F' ih => simp [List.count_append, ih]

lemma collectMp3Files_eq_flatten : ∀ F : List (List String),
    collectMp3Files F = F.flatten := by
  have haux : ∀ (F : List (List String)) (acc : List String),
      F.foldl (fun a l => a ++ l) acc = acc ++ F.flatten := by
    intro F
    induction F with
    | nil => simp
    | cons l F' ih =>
      intro acc
      simp [List.foldl_cons, ih, List.append_assoc]
  intro F
  simpa using haux F []

/-- Claim C9: the enqueued batch is the keep-first de-duplication of the URL
sequence in its given order (each distinct URL once, at its first occurrence,
order preserved), hence duplicate-free; local MP3 files are enqueued by plain
concatenation of the selected folders, so duplicates are kept — the count of
any file in the enqueued list is the sum of its per-folder counts. -/
theorem c9_enqueue_dedup (single : String) (lines : List String)
    (folders : List (List String)) (x : String) :
    collectUrls single lines = dedupFirst (urlSource single lines)
    ∧ (collectUrls single lines).Nodup
    ∧ collectMp3Files folders = folders.flatten
    ∧ (collectMp3Files folders).count x = (folders.map fun l => l.count x).sum := by
  refine ⟨collectUrls_eq_dedupFirst single lines, ?_, collectMp3Files_eq_flatten folders, ?_⟩
  · rw [collectUrls_eq_dedupFirst]
    exact dedupFirst_nodup _
  · rw [collectMp3Files_eq_flatten]
    exact flatten_count x folders

/-! ## Sequential batch loop (`process_urls`, lines 524-578)

`process_urls` iterates the URL list: at the top of each iteration it breaks
when `self.processing` is false (line 539); the per-item work (download, the
post-download check at line 551, the subtitle run) reads the flag again while
the external process streams — when the flag has been cleared the process is
terminated and the step returns `None`, so the item is dropped and the next
top-of-loop check breaks.  A raised exception is caught at the item boundary
(lines 566-567) and iteration continues.  After the loop the code always
enqueues `progress_stop` and the two button-state events, and only when
`self.processing` is still true (line 574) does it emit the final status, log
and summary messagebox (lines 574-578).

The stop signal is modelled as a checkpoint schedule: checkpoints are counted
`2*i` (top-of-loop check of item `i`) and `2*i + 1` (the in-flight flag reads
of item `i`, all of which observe the same cleared flag once stop happened);
the flag read after the loop is checkpoint `2 * (final index)`.  `stop = some
s` means the flag is cleared from checkpoint `s` on; `none` means `Stop()` is
never invoked. -/

/-- Behaviour of one work item's steps: whether `download_audio` returns an
artifact, whether `generate_subtitle` returns a subtitle path, and whether an
exception is raised inside the `try` block. -/
structure ItemBehavior where
  extractOk : Bool
  transcribeOk : Bool
  raises : Bool
deriving DecidableEq

/-- An item yields a success (`success_count += 1`) exactly when no exception
is raised, the download returns a file and the subtitle run returns a path. -/
def ItemBehavior.ok (b : ItemBehavior) : Bool :=
  !b.raises && b.extractOk && b.transcribeOk

/-- Number of successful items of a behaviour list. -/
def countOk : List ItemBehavior → Nat
  | [] => 0
  | b :: rest => (if b.ok then 1 else 0) + countOk rest

/-- Events the worker pushes onto the message queue (plus the status/log
calls), in emission order. -/
inductive Event where
  | statusItem (idx total : Nat)
  | logLine (s : String)
  | progressStopped
  | startBtnEnabled
  | stopBtnDisabled
  | statusDone (succ total : Nat)
  | summary (succ total : Nat)
deriving DecidableEq

/-- Whether an event is the final batch summary messagebox. -/
def isSummaryEvt : Event → Bool
  | .summary _ _ => true
  | .statusItem _ _ => false
  | .logLine _ => false
  | .progressStopped => false
  | .startBtnEnabled => false
  | .stopBtnDisabled => false
  | .statusDone _ _ => false

/-- Whether an event list contains a batch summary. -/
def hasSummary (events : List Event) : Bool :=
  events.any isSummaryEvt

/-- Whether the processing flag is still set at checkpoint `cp` under stop
schedule `stop`. -/
def stepAlive : Option Nat → Nat → Bool
  | none, _ => true
  | some s, cp => decide (cp < s)

/-- Loop state of `process_urls`: index of the next item, the success count,
how many items entered their iteration body, whether an in-flight process
observed the cleared flag (and was therefore terminated), and the events
emitted so far. -/
structure LoopSt where
  idx : Nat
  succ : Nat
  started : Nat
  term : Bool
  events : List Event
deriving DecidableEq

/-- The `for idx, url in enumerate(urls, 1)` loop body of `process_urls`. -/
def runItems (stop : Option Nat) (total : Nat) : List ItemBehavior → LoopSt → LoopSt
  | [], st => st
  | b :: rest, st =>
    if stepAlive stop (2 * st.idx) then
      let ev1 := st.events ++ [Event.statusItem (st.idx + 1) total,
        Event.logLine "processing item"]
      if stepAlive stop (2 * st.idx + 1) then
        if b.raises then
          runItems stop total rest
            { idx := st.idx + 1, succ := st.succ, started := st.started + 1,
              term := st.term, events := ev1 ++ [Event.logLine "processing failed"] }
        else if b.extractOk then
          if b.transcribeOk then
            runItems stop total rest
              { idx := st.idx + 1, succ := st.succ + 1, started := st.started + 1,
                term := st.term, events := ev1 ++ [Event.logLine "subtitle generated"] }
          else
            runItems stop total rest
              { idx := st.idx + 1, succ := st.succ, started := st.started + 1,
                term := st.term, events := ev1 ++ [Event.logLine "subtitle failed"] }
        else
          runItems stop total rest
            { idx := st.idx + 1, succ := st.succ, started := st.started + 1,
              term := st.term, events := ev1 }
      else
        runItems stop total rest
          { idx := st.idx + 1, succ := st.succ, started := st.started + 1,
            term := true, events := ev1 }
    else st

/-- Result of one whole `process_urls` run. -/
structure RunResult where
  succeeded : Nat
  started : Nat
  terminatedInFlight : Bool
  processingAtEnd : Bool
  events : List Event
deriving DecidableEq

/-- Shallow embedding of a full `process_urls` run: the loop, then the
unconditional queue events, then — only if the flag is still set — the final
status, log and summary messagebox. -/
def runBatch (items : List ItemBehavior) (stop : Option Nat) : RunResult :=
  let st := runItems stop items.length items ⟨0, 0, 0, false, []⟩
  let finalAlive := stepAlive stop (2 * st.idx)
  { succeeded := st.succ
    started := st.started
    terminatedInFlight := st.term
    processingAtEnd := finalAlive
    events := st.events ++
      [Event.progressStopped, Event.startBtnEnabled, Event.stopBtnDisabled] ++
      (if finalAlive then
        [Event.statusDone st.succ items.length, Event.logLine "all done",
          Event.summary st.succ items.length]
      else []) }

lemma stepAlive_none (cp : Nat) : stepAlive none cp = true := rfl

lemma runItems_none (total : Nat) : ∀ (l : List ItemBehavior) (st : LoopSt),
    (runItems none total l st).started = st.started + l.length
    ∧ (runItems none total l st).succ = st.succ + countOk l := by
  intro l
  induction l with
  | nil => intro st; simp [runItems, countOk]
  | cons b rest ih =>
    intro st
    rw [runItems]
    simp only [stepAlive_none, if_true]
    by_cases hr : b.raises <;> by_cases he : b.extractOk <;> by_cases ht : b.transcribeOk <;>
      · simp only [hr, he, ht, if_true, if_false, Bool.false_eq_true]
        refine ⟨?_, ?_⟩
        · rw [(ih _).1]
          simp
          try omega
        · rw [(ih _).2]
          simp [countOk, ItemBehavior.ok, hr, he, ht]
          try omega

lemma runItems_hasSummary (stop : Option Nat) (total : Nat) :
    ∀ (l : List ItemBehavior) (st : LoopSt),
    hasSummary (runItems stop total l st).events = hasSummary st.events := by
  intro l
  induction l with
  | nil => intro st; rfl
  | cons b rest ih =>
    intro st
    rw [runItems]
    have hrec : ∀ st' : LoopSt, hasSummary st'.events = hasSummary st.events →
        hasSummary (runItems stop total rest st').events = hasSummary st.events := by
      intro st' h
      rw [ih st', h]
    by_cases h0 : stepAlive stop (2 * st.idx) = true
    · rw [if_pos h0]
      by_cases h1 : stepAlive stop (2 * st.idx + 1) = true
      · rw [if_pos h1]
        by_cases hr : b.raises = true
        · rw [if_pos hr]
          exact hrec _ (by simp [hasSummary, isSummaryEvt])
        · rw [if_neg hr]
          by_cases he : b.extractOk = true
          · rw [if_pos he]
            by_cases ht : b.transcribeOk = true
            · rw [if_pos ht]
              exact hrec _ (by simp [hasSummary, isSummaryEvt])
            · rw [if_neg ht]
              exact hrec _ (by simp [hasSummary, isSummaryEvt])
          · rw [if_neg he]
            exact hrec _ (by simp [hasSummary, isSummaryEvt])
      · rw [if_neg h1]
        exact hrec _ (by simp [hasSummary, isSummaryEvt])
    · rw [if_neg h0]

lemma runItems_break (s total : Nat) (l : List ItemBehavior) (st : LoopSt)
    (h : stepAlive (some s) (2 * st.idx) = false) :
    runItems (some s) total l st = st := by
  cases l with
  | nil => rfl
  | cons b rest =>
    rw [runItems]
    simp [h]

lemma runItems_idx (s total : Nat) : ∀ (l : List ItemBehavior) (st : LoopSt),
    (runItems (some s) total l st).idx = st.idx + l.length
    ∨ stepAlive (some s) (2 * (runItems (some s) total l st).idx) = false := by
  intro l
  induction l with
  | nil => intro st; left; simp [runItems]
  | cons b rest ih =>
    intro st
    rw [runItems]
    have hrec : ∀ st' : LoopSt, st'.idx = st.idx + 1 →
        (runItems (some s) total rest st').idx = st.idx + (b :: rest).length
        ∨ stepAlive (some s) (2 * (runItems (some s) total rest st').idx) = false := by
      intro st' e1
      rcases ih st' with h2 | h2
      · left
        rw [h2, e1]
        simp only [List.length_cons]
        omega
      · right
        exact h2
    by_cases h0 : stepAlive (some s) (2 * st.idx) = true
    · rw [if_pos h0]
      by_cases h1 : stepAlive (some s) (2 * st.idx + 1) = true
      · rw [if_pos h1]
        by_cases hr : b.raises = true
        · rw [if_pos hr]
          exact hrec _ rfl
        · rw [if_neg hr]
          by_cases he : b.extractOk = true
          · rw [if_pos he]
            by_cases ht : b.transcribeOk = true
            · rw [if_pos ht]
              exact hrec _ rfl
            · rw [if_neg ht]
              exact hrec _ rfl
          · rw [if_neg he]
            exact hrec _ rfl
      · rw [if_neg h1]
        exact hrec _ rfl
    · rw [if_neg h0]
      right
      simpa using h0

lemma runItems_stopAt (total j : Nat) : ∀ (l : List ItemBehavior) (st : LoopSt),
    st.idx ≤ j → j < st.idx + l.length →
    (runItems (some (2 * j + 1)) total l st).started = st.started + (j + 1 - st.idx)
    ∧ (runItems (some (2 * j + 1)) total l st).succ ≤ st.succ + (j - st.idx)
    ∧ (runItems (some (2 * j + 1)) total l st).term = true := by
  intro l
  induction l with
  | nil =>
    intro st h1 h2
    simp only [List.length_nil] at h2
    omega
  | cons b rest ih =>
    intro st h1 h2
    have h2' : j < st.idx + (rest.length + 1) := by simpa using h2
    rw [runItems]
    have h0 : stepAlive (some (2 * j + 1)) (2 * st.idx) = true := by
      simp only [stepAlive, decide_eq_true_eq]
      omega
    rw [if_pos h0]
    by_cases hmid : st.idx = j
    · have h1f : ¬ stepAlive (some (2 * j + 1)) (2 * st.idx + 1) = true := by
        simp only [stepAlive, decide_eq_true_eq]
        omega
      rw [if_neg h1f]
      have hbreak : runItems (some (2 * j + 1)) total rest
          { idx := st.idx + 1, succ := st.succ, started := st.started + 1,
            term := true, events := st.events ++ [Event.statusItem (st.idx + 1) total,
              Event.logLine "processing item"] } =
          { idx := st.idx + 1, succ := st.succ, started := st.started + 1,
            term := true, events := st.events ++ [Event.statusItem (st.idx + 1) total,
              Event.logLine "processing item"] } := by
        apply runItems_break
        simp only [stepAlive, decide_eq_false_iff_not]
        omega
      rw [hbreak]
      exact ⟨by simp; try omega, by simp; try omega, rfl⟩
    · have hlt : st.idx < j := by omega
      have h1t : stepAlive (some (2 * j + 1)) (2 * st.idx + 1) = true := by
        simp only [stepAlive, decide_eq_true_eq]
        omega
      rw [if_pos h1t]
      have hrec : ∀ st' : LoopSt, st'.idx = st.idx + 1 → st'.started = st.started + 1 →
          (st'.succ = st.succ ∨ st'.succ = st.succ + 1) →
          (runItems (some (2 * j + 1)) total rest st').started =
              st.started + (j + 1 - st.idx)
          ∧ (runItems (some (2 * j + 1)) total rest st').succ ≤ st.succ + (j - st.idx)
          ∧ (runItems (some (2 * j + 1)) total rest st').term = true := by
        intro st' e1 e2 e3
        obtain ⟨ih1, ih2, ih3⟩ := ih st' (by omega) (by omega)
        refine ⟨?_, ?_, ih3⟩
        · rw [ih1, e2, e1]
          omega
        · rcases e3 with e3 | e3 <;>
            · rw [e1, e3] at ih2
              omega
      by_cases hr : b.raises = true
      · rw [if_pos hr]
        exact hrec _ rfl rfl (Or.inl rfl)
      · rw [if_neg hr]
        by_cases he : b.extractOk = true
        · rw [if_pos he]
          by_cases ht : b.transcribeOk = true
          · rw [if_pos ht]
            exact hrec _ rfl rfl (Or.inr rfl)
          · rw [if_neg ht]
            exact hrec _ rfl rfl (Or.inl rfl)
        · rw [if_neg he]
          exact hrec _ rfl rfl (Or.inl rfl)

/-- Claim C7: with no stop signal, every item of the batch is attempted no
matter how individual items fail (including raised exceptions): the number of
items entering the loop body equals the batch length, and the success count
is exactly the number of fully successful items. -/
theorem c7_item_failure_never_aborts (items : List ItemBehavior) :
    (runBatch items none).started = items.length
    ∧ (runBatch items none).succeeded = countOk items := by
  have h := runItems_none items.length items ⟨0, 0, 0, false, []⟩
  exact ⟨by simpa using h.1, by simpa using h.2⟩

/-- Claim C5: when `Stop()` takes effect while item `j+1` of the batch is in
flight (stop from checkpoint `2*j + 1` on, `j < N`), the in-flight process
observes the cleared flag and is terminated, exactly the first `j+1` items
were ever started (no later item is attempted), and the success count is at
most `j` — only items fully completed before the stop. -/
theorem c5_stop_bounds (items : List ItemBehavior) (j : Nat) (hj : j < items.length) :
    (runBatch items (some (2 * j + 1))).terminatedInFlight = true
    ∧ (runBatch items (some (2 * j + 1))).started = j + 1
    ∧ (runBatch items (some (2 * j + 1))).succeeded ≤ j := by
  have h := runItems_stopAt items.length j items ⟨0, 0, 0, false, []⟩
    (by simp) (by simpa using hj)
  refine ⟨by simpa using h.2.2, by simpa using h.1, by simpa using h.2.1⟩

/-- Concrete instance of `c5_stop_bounds`: two healthy items, stop while the
second is in flight. -/
theorem c5_stop_bounds_witness :
    (runBatch [⟨true, true, false⟩, ⟨true, true, false⟩] (some 3)).terminatedInFlight = true
    ∧ (runBatch [⟨true, true, false⟩, ⟨true, true, false⟩] (some 3)).started = 1 + 1
    ∧ (runBatch [⟨true, true, false⟩, ⟨true, true, false⟩] (some 3)).succeeded ≤ 1 :=
  c5_stop_bounds [⟨true, true, false⟩, ⟨true, true, false⟩] 1 (by decide)

/-- Claim C6 counterexample: a stop-triggered completion emits no
`BatchSummary` event at all — the final summary block of `process_urls` is
guarded by `if self.processing:` (line 574), which is false after a stop.
Here a one-item batch of a healthy item is stopped while the item is in
flight: the run completes (the item was started and its process terminated)
and the event stream of the whole run contains no summary, contradicting the
claim that stop-triggered completion also emits a final `BatchSummary`. -/
theorem c6_counterexample :
    (runBatch [⟨true, true, false⟩] (some 1)).started = 1
    ∧ (runBatch [⟨true, true, false⟩] (some 1)).terminatedInFlight = true
    ∧ hasSummary (runBatch [⟨true, true, false⟩] (some 1)).events = false := by
  refine ⟨?_, ?_, ?_⟩ <;> decide

/-- Claim C6 (amended): a run that completes normally (no stop) emits a final
`BatchSummary` event reporting succeeded/total, and that summary is the last
event of the run; a run whose stop signal takes effect at any checkpoint of
the run emits no `BatchSummary` event at all. -/
theorem c6_summary_amended (items : List ItemBehavior) (s : Nat)
    (hs : s ≤ 2 * items.length) :
    (runBatch items none).events.getLast? =
      some (Event.summary (runBatch items none).succeeded items.length)
    ∧ hasSummary (runBatch items (some s)).events = false := by
  constructor
  · show (runBatch items none).events.getLast? =
      some (Event.summary (runItems none items.length items ⟨0, 0, 0, false, []⟩).succ
        items.length)
    unfold runBatch
    simp only [stepAlive_none, if_true, List.getLast?_append]
    rfl
  · have hfin : stepAlive (some s) (2 * (runItems (some s) items.length items
        ⟨0, 0, 0, false, []⟩).idx) = false := by
      rcases runItems_idx s items.length items ⟨0, 0, 0, false, []⟩ with h | h
      · rw [h]
        simp only [stepAlive, decide_eq_false_iff_not]
        simp only [Nat.zero_add] at h ⊢
        omega
      · exact h
    unfold runBatch
    simp only [hfin, Bool.false_eq_true, if_false, List.append_nil]
    rw [hasSummary, List.any_append]
    have h1 : hasSummary (runItems (some s) items.length items
        ⟨0, 0, 0, false, []⟩).events = false := by
      rw [runItems_hasSummary]
      rfl
    rw [hasSummary] at h1
    rw [h1]
    rfl

/-- Concrete instance of `c6_summary_amended`: two healthy items, stop
schedule at checkpoint 1. -/
theorem c6_summary_amended_witness :
    (runBatch [⟨true, true, false⟩, ⟨true, false, false⟩] none).events.getLast? =
      some (Event.summary
        (runBatch [⟨true, true, false⟩, ⟨true, false, false⟩] none).succeeded 2)
    ∧ hasSummary (runBatch [⟨true, true, false⟩, ⟨true, false, false⟩]
        (some 1)).events = false := by
  have h := c6_summary_amended [⟨true, true, false⟩, ⟨true, false, false⟩] 1 (by decide)
  simpa using h

/-! ## Main thread and worker interleaving (claim C1)

`start_processing` / `process_local_mp3` set `processing = True`, disable the
start button, enable the stop button and spawn a worker thread (lines 340-349
and 501-510); a start click is only possible while the start button is
enabled.  `stop_processing` (lines 512-522) sets `processing = False`,
terminates the current process, re-enables start and disables stop — while
the worker thread may still be alive.  A worker alternates between the
top-of-loop flag check (spawning the next external process when the flag is
set and items remain) and having a process in flight (the item finishing, or
the terminated process resolving and the loop continuing); when the worker
observes a cleared flag or runs out of items it exits, enqueueing the button
events that re-enable start.  States record the shared flag, the two button
states and the live workers; each worker records whether its external process
is in flight and how many items remain. -/

/-- Program counter of a worker thread: at the top-of-loop check, or with an
external process in flight. -/
inductive WPc where
  | atTop
  | inFlight
deriving DecidableEq

/-- One worker thread: its program counter and remaining item count. -/
structure Worker where
  pc : WPc
  remaining : Nat
deriving DecidableEq

/-- Shared state of the Tk application: the `processing` flag, the two button
states, and the live worker threads in spawn order. -/
structure Sys where
  processing : Bool
  startEnabled : Bool
  stopEnabled : Bool
  workers : List Worker
deriving DecidableEq

/-- State after `setup_ui`: idle, start enabled, stop disabled, no worker. -/
def initSys : Sys :=
  { processing := false, startEnabled := true, stopEnabled := false, workers := [] }

/-- Number of external processes currently in flight. -/
def inFlightCount (s : Sys) : Nat :=
  (s.workers.filter fun w => w.pc == WPc.inFlight).length

/-- Actions: a start click with a validated batch of `n` items, a stop click,
a worker spawning its next process, a worker's in-flight process resolving,
and a worker exiting. -/
inductive Act where
  | start (n : Nat)
  | stop
  | spawn (i : Nat)
  | itemDone (i : Nat)
  | finish (i : Nat)
deriving DecidableEq

/-- Labelled transition relation of the application. -/
inductive Step : Sys → Act → Sys → Prop where
  | start (s : Sys) (n : Nat) (h : s.startEnabled = true) (hn : 0 < n) :
      Step s (Act.start n)
        { processing := true, startEnabled := false, stopEnabled := true,
          workers := s.workers ++ [{ pc := WPc.atTop, remaining := n }] }
  | stop (s : Sys) (h : s.stopEnabled = true) :
      Step s Act.stop
        { processing := false, startEnabled := true, stopEnabled := false,
          workers := s.workers }
  | spawn (s : Sys) (i n : Nat) (h : s.workers[i]? = some { pc := WPc.atTop, remaining := n })
      (hp : s.processing = true) (hn : 0 < n) :
      Step s (Act.spawn i)
        { processing := s.processing, startEnabled := s.startEnabled,
          stopEnabled := s.stopEnabled,
          workers := s.workers.set i { pc := WPc.inFlight, remaining := n } }
  | itemDone (s : Sys) (i n : Nat)
      (h : s.workers[i]? = some { pc := WPc.inFlight, remaining := n }) :
      Step s (Act.itemDone i)
        { processing := s.processing, startEnabled := s.startEnabled,
          stopEnabled := s.stopEnabled,
          workers := s.workers.set i { pc := WPc.atTop, remaining := n - 1 } }
  | finish (s : Sys) (i n : Nat)
      (h : s.workers[i]? = some { pc := WPc.atTop, remaining := n })
      (hc : n = 0 ∨ s.processing = false) :
      Step s (Act.finish i)
        { processing := s.processing, startEnabled := true, stopEnabled := false,
          workers := s.workers.eraseIdx i }

/-- Reachability along a recorded trace of actions from the initial state. -/
inductive ReachVia : List Act → Sys → Prop where
  | init : ReachVia [] initSys
  | snoc {tr : List Act} {s s' : Sys} {a : Act} :
      ReachVia tr s → Step s a s' → ReachVia (tr ++ [a]) s'

/-- A state is reachable when some trace leads to it. -/
def Reachable (s : Sys) : Prop :=
  ∃ tr, ReachVia tr s

/-- A state with two workers both having an external process in flight. -/
def raceSys : Sys :=
  { processing := true, startEnabled := false, stopEnabled := true,
    workers := [{ pc := WPc.inFlight, remaining := 1 },
      { pc := WPc.inFlight, remaining := 1 }] }

/-- The state right after a start click of a 1-item batch from the initial
state. -/
def oneStartSys : Sys :=
  { processing := true, startEnabled := false, stopEnabled := true,
    workers := [{ pc := WPc.atTop, remaining := 1 }] }

/-- Claim C1 counterexample: a state with two external processes in flight is
reachable.  `stop_processing` re-enables the start button while the worker
thread is still alive; a start click then sets `processing = True` back, so
the old worker's next flag checks pass and it keeps running its batch
concurrently with the new worker.  Trace: start a 2-item batch, its worker
goes in flight, stop, immediately start a 1-item batch, the old worker's
terminated process resolves and the old worker — seeing the flag set again —
spawns its next process, and the new worker spawns its own. -/
theorem c1_counterexample : Reachable raceSys ∧ inFlightCount raceSys = 2 := by
  constructor
  · exact ⟨[Act.start 2, Act.spawn 0, Act.stop, Act.start 1, Act.itemDone 0,
      Act.spawn 0, Act.spawn 1],
      ReachVia.snoc (ReachVia.snoc (ReachVia.snoc (ReachVia.snoc (ReachVia.snoc
        (ReachVia.snoc (ReachVia.snoc ReachVia.init
          (Step.start initSys 2 rfl (by decide)))
          (Step.spawn _ 0 2 rfl rfl (by decide)))
          (Step.stop _ rfl))
          (Step.start _ 1 rfl (by decide)))
          (Step.itemDone _ 0 2 rfl))
          (Step.spawn _ 0 1 rfl rfl (by decide)))
          (Step.spawn _ 1 1 rfl rfl (by decide))⟩
  · decide

/-- For a trace without any stop click, at most one worker is ever alive and
the start button is enabled only when no worker is alive. -/
lemma stopFree_invariant (tr : List Act) (s : Sys) (hr : ReachVia tr s)
    (hns : ∀ a ∈ tr, a ≠ Act.stop) :
    s.workers.length ≤ 1 ∧ (s.startEnabled = true → s.workers = []) := by
  induction hr with
  | init => exact ⟨by simp [initSys], fun _ => rfl⟩
  | @snoc tr s s' a hr hstep ih =>
    have hns' : ∀ b ∈ tr, b ≠ Act.stop := fun b hb =>
      hns b (List.mem_append.mpr (Or.inl hb))
    have ha : a ≠ Act.stop := hns a (List.mem_append.mpr (Or.inr (by simp)))
    obtain ⟨hlen, hse⟩ := ih hns'
    cases hstep with
    | start n h hn =>
      refine ⟨?_, ?_⟩
      · have hw := hse h
        simp [hw]
      · intro hcontra
        simp at hcontra
    | stop h =>
      exact absurd rfl ha
    | spawn i n h hp hn =>
      refine ⟨?_, ?_⟩
      · simpa using hlen
      · intro hstart
        have hw := hse hstart
        rw [hw] at h
        simp at h
    | itemDone i n h =>
      refine ⟨?_, ?_⟩
      · simpa using hlen
      · intro hstart
        have hw := hse hstart
        rw [hw] at h
        simp at h
    | finish i n h hc =>
      refine ⟨?_, ?_⟩
      · exact le_trans (List.length_eraseIdx_le _ _) hlen
      · intro _
        have hi := (List.getElem?_eq_some.mp h).1
        have h1le := Nat.lt_of_le_of_lt (Nat.zero_le i) hi
        have hone := Nat.le_antisymm hlen h1le
        have hi0 : i = 0 := by omega
        obtain ⟨w, hw⟩ := List.length_eq_one.mp hone
        rw [hw, hi0]
        rfl

/-- Claim C1 (amended): in any run in which `Stop()` is never clicked, at most
one external process is in flight at any reachable state, and while a batch is
running (a worker is alive) the start button is disabled, so no start click —
and hence no second batch — is possible.  (After a stop click the start button
is re-enabled before the old worker exits, and a second batch can then run
concurrently with it, as `c1_counterexample` shows.) -/
theorem c1_single_flight_amended (tr : List Act) (s : Sys) (hr : ReachVia tr s)
    (hns : ∀ a ∈ tr, a ≠ Act.stop) :
    inFlightCount s ≤ 1
    ∧ (s.workers ≠ [] → s.startEnabled = false)
    ∧ (s.workers ≠ [] → ∀ n s', ¬ Step s (Act.start n) s') := by
  obtain ⟨hlen, hse⟩ := stopFree_invariant tr s hr hns
  refine ⟨?_, ?_, ?_⟩
  · exact le_trans (List.length_filter_le _ _) hlen
  · intro hw
    cases hst : s.startEnabled with
    | false => rfl
    | true => exact absurd (hse hst) hw
  · intro hw n s' hstep
    cases hstep with
    | start n h hn => exact hw (hse h)

/-- Concrete instance of `c1_single_flight_amended`: the state after a single
start click of a 1-item batch. -/
theorem c1_single_flight_amended_witness :
    inFlightCount oneStartSys ≤ 1
    ∧ (oneStartSys.workers ≠ [] → oneStartSys.startEnabled = false)
    ∧ (oneStartSys.workers ≠ [] → ∀ n s', ¬ Step oneStartSys (Act.start n) s') :=
  c1_single_flight_amended [Act.start 1] oneStartSys
    (ReachVia.snoc ReachVia.init (Step.start initSys 1 rfl (by decide)))
    (by decide)

end SubtitleGen
